import Mathlib

/-!
Verification development for the LifeOS mail synchronization engine
(`src-tauri/src/commands/email_commands.rs`).

Rust strings are UTF-8 byte sequences; the header-decoding code
(`decode_mime_header`, `decode_quoted_printable_header`) manipulates them
through byte indices, so those functions are embedded over `List Nat`
(each element a byte value `< 256`).  Code that only uses char-level
string operations (`parse_uidl_response`, id sanitization, the delete
path) is embedded over `String`/`List Char`.  Machine integers (`u32`,
`u8`) are embedded as `Nat`; Rust `saturating_sub` coincides with
truncated `Nat` subtraction.  Fallible operations return `Option` or
`Except`; a Rust panic is embedded as a distinguished error value.
-/

/-- A byte is a UTF-8 continuation byte (`0x80..=0xBF`). -/
def isUtf8Cont (b : Nat) : Bool := 0x80 ≤ b && b ≤ 0xBF

/--
One step of the UTF-8 decoder used by Rust's `String::from_utf8_lossy`:
given the first byte and the remaining bytes, return the decoded code
point (`0xFFFD` for an invalid maximal subpart) together with the number
of bytes consumed (at least 1).  Follows the "maximal valid subpart"
replacement policy of `core::str` (an incomplete sequence at the end of
the input is consumed whole and yields a single replacement character).
-/
def utf8Step (b : Nat) (rest : List Nat) : Nat × Nat :=
  if b < 0x80 then (b, 1)
  else if 0xC2 ≤ b && b ≤ 0xDF then
    match rest with
    | c1 :: _ =>
      if isUtf8Cont c1 then ((b - 0xC0) * 0x40 + (c1 - 0x80), 2)
      else (0xFFFD, 1)
    | [] => (0xFFFD, 1)
  else if 0xE0 ≤ b && b ≤ 0xEF then
    let c1lo : Nat := if b = 0xE0 then 0xA0 else 0x80
    let c1hi : Nat := if b = 0xED then 0x9F else 0xBF
    match rest with
    | c1 :: rest1 =>
      if c1lo ≤ c1 && c1 ≤ c1hi then
        match rest1 with
        | c2 :: _ =>
          if isUtf8Cont c2 then
            ((b - 0xE0) * 0x1000 + (c1 - 0x80) * 0x40 + (c2 - 0x80), 3)
          else (0xFFFD, 2)
        | [] => (0xFFFD, 2)
      else (0xFFFD, 1)
    | [] => (0xFFFD, 1)
  else if 0xF0 ≤ b && b ≤ 0xF4 then
    let c1lo : Nat := if b = 0xF0 then 0x90 else 0x80
    let c1hi : Nat := if b = 0xF4 then 0x8F else 0xBF
    match rest with
    | c1 :: rest1 =>
      if c1lo ≤ c1 && c1 ≤ c1hi then
        match rest1 with
        | c2 :: rest2 =>
          if isUtf8Cont c2 then
            match rest2 with
            | c3 :: _ =>
              if isUtf8Cont c3 then
                ((b - 0xF0) * 0x40000 + (c1 - 0x80) * 0x1000 +
                  (c2 - 0x80) * 0x40 + (c3 - 0x80), 4)
              else (0xFFFD, 3)
            | [] => (0xFFFD, 3)
          else (0xFFFD, 2)
        | [] => (0xFFFD, 2)
      else (0xFFFD, 1)
    | [] => (0xFFFD, 1)
  else (0xFFFD, 1)

/-- Fuelled worker for the lossy UTF-8 decoder (each step consumes at
least one byte, so fuel equal to the byte count suffices). -/
def utf8LossyAux : Nat → List Nat → List Nat
  | 0, _ => []
  | _, [] => []
  | fuel + 1, b :: rest =>
    let s := utf8Step b rest
    s.1 :: utf8LossyAux fuel ((b :: rest).drop s.2)

/-- Decode a byte sequence to the list of Unicode code points produced by
Rust's `String::from_utf8_lossy` (invalid subparts become `U+FFFD`). -/
def utf8LossyCps (l : List Nat) : List Nat := utf8LossyAux l.length l

/-- Standard UTF-8 encoding of one Unicode code point. -/
def utf8EncodeCp (c : Nat) : List Nat :=
  if c < 0x80 then [c]
  else if c < 0x800 then [0xC0 + c / 0x40, 0x80 + c % 0x40]
  else if c < 0x10000 then
    [0xE0 + c / 0x1000, 0x80 + c / 0x40 % 0x40, 0x80 + c % 0x40]
  else
    [0xF0 + c / 0x40000, 0x80 + c / 0x1000 % 0x40, 0x80 + c / 0x40 % 0x40,
      0x80 + c % 0x40]

/-- UTF-8 bytes of a Lean string (used to write byte-level test inputs
readably; Lean `Char` code points equal Rust `char` code points). -/
def utf8Encode (s : String) : List Nat := s.data.flatMap (fun c => utf8EncodeCp c.toNat)

/-- The bytes of `String::from_utf8_lossy` applied to `l`. -/
def utf8LossyBytes (l : List Nat) : List Nat := (utf8LossyCps l).flatMap utf8EncodeCp

/-- The Lean string holding the characters of `String::from_utf8_lossy l`
(every code point the decoder emits is a valid scalar value). -/
def lossyString (l : List Nat) : String := String.mk ((utf8LossyCps l).map Char.ofNat)

/-- Whether a byte sequence is valid UTF-8 (mirrors the acceptance of
Rust's `String::from_utf8`). -/
def validUtf8Aux : Nat → List Nat → Bool
  | 0, l => l.isEmpty
  | _, [] => true
  | fuel + 1, b :: rest =>
    let s := utf8Step b rest
    if s.1 = 0xFFFD && !(b = 0xEF && rest.take 2 = [0xBF, 0xBD]) then false
    else validUtf8Aux fuel ((b :: rest).drop s.2)

/-- Validity of a byte sequence as UTF-8. -/
def validUtf8 (l : List Nat) : Bool := validUtf8Aux l.length l

/-- First byte index at which `pat` occurs as a contiguous subsequence of
`l` (Rust `str::find` on the corresponding strings; both patterns used by
the source, "=?" and "?=", are ASCII so byte search equals string
search). -/
def findSub : List Nat → List Nat → Option Nat
  | [], pat => if pat.isEmpty then some 0 else none
  | l@(_ :: t), pat =>
    if pat.isPrefixOf l then some 0 else (findSub t pat).map (· + 1)

/-- Rust `str::splitn(n, sep)` for an ASCII `sep`, over bytes: at most `n`
pieces, the last piece being the unsplit remainder. -/
def splitnB : Nat → Nat → List Nat → List (List Nat)
  | 0, _, _ => []
  | 1, _, l => [l]
  | n + 2, sep, l =>
    match findSub l [sep] with
    | some i => l.take i :: splitnB (n + 1) sep (l.drop (i + 1))
    | none => [l]

/-- ASCII uppercasing of a byte string.  The source uppercases the
encoding field only to compare it against "B" and "Q"; Unicode
uppercasing and ASCII uppercasing agree on whether the result equals
those single-letter ASCII strings. -/
def asciiUpperB (l : List Nat) : List Nat :=
  l.map (fun b => if 97 ≤ b && b ≤ 122 then b - 32 else b)

/-- ASCII lowercasing of one byte. -/
def asciiLowerByte (b : Nat) : Nat := if 65 ≤ b && b ≤ 90 then b + 32 else b

/-- Rust `str::eq_ignore_ascii_case` over bytes. -/
def eqIgnoreAsciiCaseB (a b : List Nat) : Bool :=
  a.map asciiLowerByte = b.map asciiLowerByte

/-- UTF-8 encodings of every `char` with the Unicode `White_Space`
property (the set trimmed by Rust's `str::trim`). -/
def wsSeqs : List (List Nat) :=
  [[0x09], [0x0A], [0x0B], [0x0C], [0x0D], [0x20],
   [0xC2, 0x85], [0xC2, 0xA0], [0xE1, 0x9A, 0x80],
   [0xE2, 0x80, 0x80], [0xE2, 0x80, 0x81], [0xE2, 0x80, 0x82],
   [0xE2, 0x80, 0x83], [0xE2, 0x80, 0x84], [0xE2, 0x80, 0x85],
   [0xE2, 0x80, 0x86], [0xE2, 0x80, 0x87], [0xE2, 0x80, 0x88],
   [0xE2, 0x80, 0x89], [0xE2, 0x80, 0x8A], [0xE2, 0x80, 0xA8],
   [0xE2, 0x80, 0xA9], [0xE2, 0x80, 0xAF], [0xE2, 0x81, 0x9F],
   [0xE3, 0x80, 0x80]]

/-- Fuelled removal of leading whitespace characters from a byte string
(each step removes at least one byte, so fuel `l.length` suffices). -/
def trimStartBAux : Nat → List Nat → List Nat
  | 0, l => l
  | fuel + 1, l =>
    match wsSeqs.find? (fun s => s.isPrefixOf l) with
    | some s => trimStartBAux fuel (l.drop s.length)
    | none => l

/-- Remove leading whitespace characters (byte-level `str::trim_start`). -/
def trimStartB (l : List Nat) : List Nat := trimStartBAux l.length l

/-- Fuelled removal of trailing whitespace characters, working on the
reversed byte string. -/
def trimEndBAux : Nat → List Nat → List Nat
  | 0, l => l
  | fuel + 1, l =>
    match (wsSeqs.map List.reverse).find? (fun s => s.isPrefixOf l) with
    | some s => trimEndBAux fuel (l.drop s.length)
    | none => l

/-- Byte-level Rust `str::trim`: whitespace removed from both ends. -/
def rustTrimB (l : List Nat) : List Nat :=
  ((trimEndBAux l.length l.reverse).reverse : List Nat) |> trimStartB

/-- Value of one base64 alphabet byte (standard alphabet). -/
def b64Val (b : Nat) : Option Nat :=
  if 65 ≤ b && b ≤ 90 then some (b - 65)
  else if 97 ≤ b && b ≤ 122 then some (b - 97 + 26)
  else if 48 ≤ b && b ≤ 57 then some (b - 48 + 52)
  else if b = 43 then some 62
  else if b = 47 then some 63
  else none

/-- Decode one base64 quad.  `isLast` tells whether this is the final
quad, the only place the `base64` crate's STANDARD engine (canonical
padding, trailing bits rejected) accepts `=` padding. -/
def b64Quad (a b c d : Nat) (isLast : Bool) : Option (List Nat) :=
  match b64Val a, b64Val b with
  | some va, some vb =>
    if c = 61 then
      if isLast && d = 61 && vb % 16 = 0 then some [va * 4 + vb / 16]
      else none
    else
      match b64Val c with
      | some vc =>
        if d = 61 then
          if isLast && vc % 4 = 0 then
            some [va * 4 + vb / 16, vb % 16 * 16 + vc / 4]
          else none
        else
          match b64Val d with
          | some vd =>
            some [va * 4 + vb / 16, vb % 16 * 16 + vc / 4, vc % 4 * 64 + vd]
          | none => none
      | none => none
  | _, _ => none

/-- Worker decoding successive base64 quads. -/
def b64Aux : List Nat → Option (List Nat)
  | [] => some []
  | a :: b :: c :: d :: rest =>
    match b64Quad a b c d rest.isEmpty with
    | some bytes => (b64Aux rest).map (bytes ++ ·)
    | none => none
  | _ => none

/-- Decoding by `base64::engine::general_purpose::STANDARD` (as called in
`decode_mime_header`): canonical padding required, invalid characters and
non-zero trailing bits rejected. -/
def b64Decode (l : List Nat) : Option (List Nat) := b64Aux l

/-- Value of one ASCII hex digit byte. -/
def hexDigitVal (b : Nat) : Option Nat :=
  if 48 ≤ b && b ≤ 57 then some (b - 48)
  else if 65 ≤ b && b ≤ 70 then some (b - 65 + 10)
  else if 97 ≤ b && b ≤ 102 then some (b - 97 + 10)
  else none

/-- Rust `u8::from_str_radix(s, 16)` on a two-byte slice: two hex digits,
or a leading `+` and one hex digit ('-' is rejected for unsigned
types; a non-ASCII slice has no hex digits and fails). -/
def hexPairParse (x y : Nat) : Option Nat :=
  if x = 43 then hexDigitVal y
  else
    match hexDigitVal x, hexDigitVal y with
    | some hx, some hy => some (hx * 16 + hy)
    | _, _ => none

/--
Embedding of `decode_quoted_printable_header` over the bytes of its
input string.  The source iterates byte indices; on `=` with at least
two following bytes it takes the string slice `&input[i+1..i+3]`, which
PANICS when byte `i+3` falls inside a multi-byte character — that panic
is embedded as `Except.error ()`.  (`i+1` is always a boundary because
byte `i` is the ASCII `=`.)  On a hex parse the decoded byte is pushed
and three bytes are consumed; otherwise `_` becomes a space and any
other byte is copied.
-/
def qpLoop : List Nat → Except Unit (List Nat)
  | [] => .ok []
  | b :: rest =>
    if b = 61 && 2 ≤ rest.length then
      match rest with
      | x :: y :: rest2 =>
        if rest2.isEmpty = false ∧ isUtf8Cont (rest2.headD 0) then .error ()
        else
          match hexPairParse x y with
          | some v => (qpLoop rest2).map (v :: ·)
          | none =>
            (qpLoop (x :: y :: rest2)).map ((if b = 95 then 32 else b) :: ·)
      | _ => .error ()
    else
      (qpLoop rest).map ((if b = 95 then 32 else b) :: ·)

/-- The `decode_quoted_printable_header` function itself (always returns
`Some` in the source; a panic is the only failure mode). -/
def decodeQuotedPrintableHeader (l : List Nat) : Except Unit (List Nat) := qpLoop l

/-- Result of running `decode_mime_header`: a returned string, a panic
propagated from the quoted-printable path, or exhaustion of the
iteration fuel of the embedding. -/
inductive MimeResult
  | panicked
  | fuelOut
  | res (bytes : List Nat)
deriving DecidableEq, Repr

/-- The charset branch of `decode_mime_header`: UTF-8 (or "utf8") is
decoded lossily; GB2312/GBK/GB18030 first try an exact UTF-8 decode
(`String::from_utf8`) and fall back to lossy decoding; every other
charset is decoded lossily. -/
def charsetDecode (charset bytes : List Nat) : List Nat :=
  if eqIgnoreAsciiCaseB charset (utf8Encode "utf-8") ||
      eqIgnoreAsciiCaseB charset (utf8Encode "utf8") then
    utf8LossyBytes bytes
  else if eqIgnoreAsciiCaseB charset (utf8Encode "gb2312") ||
      eqIgnoreAsciiCaseB charset (utf8Encode "gbk") ||
      eqIgnoreAsciiCaseB charset (utf8Encode "gb18030") then
    if validUtf8 bytes then bytes else utf8LossyBytes bytes
  else utf8LossyBytes bytes

/--
The `while let Some(start) = result.find("=?")` loop of
`decode_mime_header`, over the bytes of the working string.  Every exit
of the Rust loop falls through to `result.trim().to_string()`, hence the
`rustTrimB` on each non-recursive branch.  A successful substitution
splices `prefix ++ decoded ++ suffix` and continues; a failed decode
(or a token without three `?`-separated fields, or a missing `?=`)
breaks out of the loop.  The loop is fuelled: each substitution removes
the six-plus delimiter bytes of its token, so `input.length + 1`
iterations are ample for every input exercised below, and exhaustion is
reported as the distinct value `fuelOut` rather than silently
mis-modelled.
-/
def decodeLoop : Nat → List Nat → MimeResult
  | 0, _ => .fuelOut
  | fuel + 1, result =>
    match findSub result [61, 63] with
    | none => .res (rustTrimB result)
    | some start =>
      match findSub (result.drop (start + 2)) [63, 61] with
      | none => .res (rustTrimB result)
      | some endIdx =>
        let encoded := (result.drop (start + 2)).take endIdx
        let parts := splitnB 3 63 encoded
        if parts.length = 3 then
          let charset := parts.headD []
          let encoding := asciiUpperB (parts.getD 1 [])
          let text := parts.getD 2 []
          let decodedBytes : Except Unit (Option (List Nat)) :=
            if encoding = [66] then .ok (b64Decode text)
            else if encoding = [81] then
              match decodeQuotedPrintableHeader text with
              | .error e => .error e
              | .ok bs => .ok (some bs)
            else .ok none
          match decodedBytes with
          | .error _ => .panicked
          | .ok (some bytes) =>
            decodeLoop fuel
              (result.take start ++ charsetDecode charset bytes ++
                result.drop (start + 2 + endIdx + 2))
          | .ok none => .res (rustTrimB result)
        else .res (rustTrimB result)

/-- Embedding of `decode_mime_header` over the bytes of its input.  The
early return for inputs without "=?" does NOT trim (the source returns
`input.to_string()` there); every path through the loop trims. -/
def decodeMimeHeader (input : List Nat) : MimeResult :=
  if (findSub input [61, 63]).isNone then .res input
  else decodeLoop (input.length + 1) input

/-- Code points of the Unicode `White_Space` characters (the set matched
by Rust's `char::is_whitespace`). -/
def wsCps : List Nat :=
  [0x09, 0x0A, 0x0B, 0x0C, 0x0D, 0x20, 0x85, 0xA0, 0x1680,
   0x2000, 0x2001, 0x2002, 0x2003, 0x2004, 0x2005, 0x2006, 0x2007,
   0x2008, 0x2009, 0x200A, 0x2028, 0x2029, 0x202F, 0x205F, 0x3000]

/-- Rust `char::is_whitespace`. -/
def isRustWs (c : Char) : Bool := wsCps.contains c.toNat

/-- Rust `str::trim` at the character level. -/
def rustTrim (s : String) : String :=
  String.mk (((s.data.dropWhile isRustWs).reverse.dropWhile isRustWs).reverse)

/-- Worker for `str::split_whitespace`: accumulate the current word
(reversed) and emit it at each whitespace boundary. -/
def splitWsAux : List Char → List Char → List (List Char)
  | [], acc => if acc.isEmpty then [] else [acc.reverse]
  | c :: rest, acc =>
    if isRustWs c then
      if acc.isEmpty then splitWsAux rest []
      else acc.reverse :: splitWsAux rest []
    else splitWsAux rest (c :: acc)

/-- Rust `str::split_whitespace`: maximal runs of non-whitespace. -/
def rustSplitWhitespace (s : String) : List String :=
  (splitWsAux s.data []).map String.mk

/-- Accumulate the value of a decimal digit string; `none` on the first
non-digit. -/
def decDigitsValAux : List Char → Nat → Option Nat
  | [], acc => some acc
  | c :: rest, acc =>
    if c.isDigit then decDigitsValAux rest (acc * 10 + (c.toNat - 48)) else none

/-- Rust `str::parse::<u32>()`: an optional leading `+`, at least one
decimal digit, and a value that fits in 32 bits (`-` is rejected for
unsigned types, and overflow is an error). -/
def parseU32Chars (cs : List Char) : Option Nat :=
  let ds := match cs with
    | '+' :: rest => rest
    | _ => cs
  if ds.isEmpty then none
  else
    match decDigitsValAux ds 0 with
    | some v => if v ≤ 4294967295 then some v else none
    | none => none

/-- Rust `str::parse::<u32>()` on a string. -/
def parseU32 (s : String) : Option Nat := parseU32Chars s.data

/-- Worker for `str::split(sep)`. -/
def splitOnCharAux (sep : Char) : List Char → List Char → List (List Char)
  | [], acc => [acc.reverse]
  | c :: rest, acc =>
    if c = sep then acc.reverse :: splitOnCharAux sep rest []
    else splitOnCharAux sep rest (c :: acc)

/-- Rust `str::split(sep)` for a `char` separator: always at least one
piece, empty pieces kept. -/
def splitOnChar (sep : Char) (cs : List Char) : List (List Char) :=
  splitOnCharAux sep cs []

/-- Drop one trailing carriage return, as Rust `str::lines` does. -/
def stripTrailingCr (cs : List Char) : List Char :=
  if cs.getLast? = some '\r' then cs.dropLast else cs

/-- Rust `str::lines`: split at `\n`, drop the piece after a trailing
newline, and strip one `\r` from the end of each line. -/
def rustLines (s : String) : List String :=
  let parts := splitOnChar '\n' s.data
  let parts := if parts.getLast? = some [] then parts.dropLast else parts
  parts.map (fun l => String.mk (stripTrailingCr l))

/-- Rust `str::starts_with` for a string pattern. -/
def strStartsWith (s pre : String) : Bool := pre.data.isPrefixOf s.data

/-- One line of a UIDL response, after trimming: split on whitespace; a
line with at least two tokens whose first token parses as a `u32` yields
a `(sequence, unique-id)` pair (`parse_uidl_response`, inner loop
body). -/
def uidlLine (t : String) : Option (Nat × String) :=
  match rustSplitWhitespace t with
  | p0 :: p1 :: _ =>
    match parseU32 p0 with
    | some n => some (n, p1)
    | none => none
  | _ => none

/-- The line loop of `parse_uidl_response`: blank lines and lines
starting with "+OK" are skipped, a line that is exactly "." breaks out,
and every other line contributes through `uidlLine`. -/
def uidlLoop : List String → List (Nat × String)
  | [] => []
  | line :: rest =>
    let t := rustTrim line
    if t.isEmpty || strStartsWith t "+OK" then uidlLoop rest
    else if t = "." then []
    else
      match uidlLine t with
      | some p => p :: uidlLoop rest
      | none => uidlLoop rest

/-- Embedding of `parse_uidl_response`. -/
def parseUidlResponse (s : String) : List (Nat × String) :=
  uidlLoop (rustLines s)

/-- The specification's reading of UIDL parsing: trim every line, keep
only the lines strictly before the "." sentinel, skip blank and "+OK"
lines, and map the rest through the per-line rule.  Stated from the
claim's words, to be proved equal to `parseUidlResponse`. -/
def parseUidlSpec (s : String) : List (Nat × String) :=
  (((rustLines s).map rustTrim).takeWhile (fun t => t ≠ ".")).filterMap
    (fun t => if t.isEmpty || strStartsWith t "+OK" then none else uidlLine t)

/-- The `EmailMessage` struct of the source.  The Rust field `from` is a
Lean keyword and is embedded as `fromStr`; `uid` (`u32`) is a `Nat`. -/
structure EmailMessage where
  id : String
  uid : Nat
  uidString : Option String
  fromStr : String
  toStr : String
  subject : String
  date : String
  bodyText : Option String
  bodyHtml : Option String
  attachments : List String
  flags : List String
  folder : String
deriving DecidableEq, Repr

/-- One address as surfaced by the external `mail_parser` crate: an
optional display name and an optional bare address. -/
structure MpAddr where
  name : Option String
  address : Option String
deriving DecidableEq, Repr

/--
The fields the source reads from a successfully parsed `mail_parser`
message.  The crate is an external collaborator, so its output is
embedded abstractly: `fromAddr`/`toAddr` are the first From/To
addresses, `dateRfc3339` is `date().to_rfc3339()` when a date exists,
`bodyTextZero`/`bodyHtmlZero` are `body_text(0)`/`body_html(0)`, and
`messageId` is the raw `message_id()` header value.
-/
structure MpMessage where
  subject : Option String
  fromAddr : Option MpAddr
  toAddr : Option MpAddr
  dateRfc3339 : Option String
  bodyTextZero : Option String
  bodyHtmlZero : Option String
  messageId : Option String
deriving DecidableEq, Repr

/-- Formatting of the From address used on both sync paths: a display
name with an address becomes `"Name <addr>"`, a bare name stays, and
otherwise the address (or empty). -/
def mpFromString (a : Option MpAddr) : String :=
  match a with
  | some ad =>
    match ad.name with
    | some n =>
      match ad.address with
      | some addr => n ++ " <" ++ addr ++ ">"
      | none => n
    | none => ad.address.getD ""
  | none => ""

/-- Formatting of the To address: the first address's bare `address()`
or empty. -/
def mpToString (a : Option MpAddr) : String :=
  match a with
  | some ad => ad.address.getD ""
  | none => ""

/-- The header/body tuple `parse_imap_messages` extracts per message. -/
structure ParsedTuple where
  subject : String
  fromStr : String
  toStr : String
  date : String
  bodyText : Option String
  bodyHtml : Option String
deriving DecidableEq, Repr

/-- The per-message field extraction of `parse_imap_messages`: when the
fetch response has a body and `mail_parser` succeeds the parsed fields
are used; when the parse FAILS, or there is no body, every field is
empty and both bodies are `None` (no error is raised and no plaintext
fallback runs on this path). -/
def imapParsedTuple (body : Option (List Nat × Option MpMessage)) : ParsedTuple :=
  match body with
  | some (_, some m) =>
    { subject := m.subject.getD "", fromStr := mpFromString m.fromAddr,
      toStr := mpToString m.toAddr, date := m.dateRfc3339.getD "",
      bodyText := m.bodyTextZero, bodyHtml := m.bodyHtmlZero }
  | some (_, none) =>
    { subject := "", fromStr := "", toStr := "", date := "",
      bodyText := none, bodyHtml := none }
  | none =>
    { subject := "", fromStr := "", toStr := "", date := "",
      bodyText := none, bodyHtml := none }

/-- One `EmailMessage` as assembled by the loop body of
`parse_imap_messages`: `body` carries the raw RFC822 bytes together
with the (abstract) result of `mail_parser` on them, and the id is
always `"{folder}_{uid}"`. -/
def imapEmailOf (folder : String) (uid : Nat) (flags : List String)
    (body : Option (List Nat × Option MpMessage)) : EmailMessage :=
  let t := imapParsedTuple body
  { id := folder ++ "_" ++ toString uid
    uid := uid
    uidString := some (toString uid)
    fromStr := t.fromStr
    toStr := t.toStr
    subject := t.subject
    date := t.date
    bodyText := t.bodyText
    bodyHtml := t.bodyHtml
    attachments := []
    flags := flags
    folder := folder }

/-- An angle bracket, as removed by `trim_matches(|c| c=='<'||c=='>')`. -/
def isAngle (c : Char) : Bool := c = '<' || c = '>'

/-- Characters kept by the Message-ID sanitizer (ASCII model of Rust's
`char::is_alphanumeric`, with which it agrees on ASCII input). -/
def keepIdChar (c : Char) : Bool :=
  c.isAlphanum || c = '@' || c = '.' || c = '-' || c = '_'

/-- Sanitization applied to a Message-ID on the POP3 parse path: strip
angle brackets from both ends, keep only alphanumerics and `@ . - _`,
and truncate to 100 characters. -/
def sanitizeMessageId (s : String) : String :=
  String.mk
    (((((s.data.dropWhile isAngle).reverse.dropWhile isAngle).reverse).filter
        keepIdChar).take 100)

/-- ASCII lowercasing of a character (the header names matched by the
basic scanner are ASCII). -/
def asciiLowerChar (c : Char) : Char :=
  if 'A' ≤ c && c ≤ 'Z' then Char.ofNat (c.toNat + 32) else c

/-- ASCII lowercasing of a string (model of `str::to_lowercase` on the
ASCII header prefixes the basic scanner compares against). -/
def asciiLowerStr (s : String) : String := String.mk (s.data.map asciiLowerChar)

/-- Header fields accumulated by `parse_pop3_email_basic_raw`. -/
structure HeaderScan where
  fromStr : String
  toStr : String
  subject : String
  date : String
  messageId : Option String
deriving DecidableEq, Repr

/-- Strip angle brackets from both ends of a string
(`trim_matches(|c| c=='<'||c=='>')`). -/
def trimAngle (s : String) : String :=
  String.mk (((s.data.dropWhile isAngle).reverse.dropWhile isAngle).reverse)

/-- One line of the basic header scan: later matching lines overwrite
earlier ones, as in the source's `for` loop. -/
def scanHeaderLine (st : HeaderScan) (line : String) : HeaderScan :=
  let lower := asciiLowerStr line
  if strStartsWith lower "from:" then
    { st with fromStr := rustTrim (String.mk (line.data.drop 5)) }
  else if strStartsWith lower "to:" then
    { st with toStr := rustTrim (String.mk (line.data.drop 3)) }
  else if strStartsWith lower "subject:" then
    { st with subject := rustTrim (String.mk (line.data.drop 8)) }
  else if strStartsWith lower "date:" then
    { st with date := rustTrim (String.mk (line.data.drop 5)) }
  else if strStartsWith lower "message-id:" then
    { st with messageId := some (trimAngle (rustTrim (String.mk (line.data.drop 11)))) }
  else st

/-- Embedding of `parse_pop3_email_basic_raw`: scan the header lines,
then assemble an `EmailMessage` whose bodies are ALWAYS `None`. -/
def pop3EmailBasicRaw (response : String) (folder : String) (seq : Nat)
    (uidString : Option String) : EmailMessage × Option String :=
  let st := (rustLines response).foldl scanHeaderLine
    { fromStr := "", toStr := "", subject := "", date := "", messageId := none }
  ({ id := st.messageId.getD (folder ++ "_" ++ toString seq)
     uid := seq
     uidString := uidString
     fromStr := st.fromStr
     toStr := st.toStr
     subject := st.subject
     date := st.date
     bodyText := none
     bodyHtml := none
     attachments := []
     flags := []
     folder := folder }, st.messageId)

/-- Embedding of `parse_pop3_email_with_parser`: on a successful
`mail_parser` parse the structured fields are used and the id is the
sanitized Message-ID (else `"{folder}_{seq}"`); on a FAILED parse the
raw bytes are decoded lossily and handed to the basic header scanner
(with `uid_string` replaced by `None`, as in the source). -/
def pop3EmailWithParser (parsed : Option MpMessage) (raw : List Nat)
    (folder : String) (seq : Nat) (uidString : Option String) :
    EmailMessage × Option String :=
  match parsed with
  | some m =>
    let messageId := m.messageId.map sanitizeMessageId
    ({ id := messageId.getD (folder ++ "_" ++ toString seq)
       uid := seq
       uidString := uidString
       fromStr := mpFromString m.fromAddr
       toStr := mpToString m.toAddr
       subject := m.subject.getD ""
       date := m.dateRfc3339.getD ""
       bodyText := m.bodyTextZero
       bodyHtml := m.bodyHtmlZero
       attachments := []
       flags := []
       folder := folder }, messageId)
  | none => pop3EmailBasicRaw (lossyString raw) folder seq none

/-- The newest sequence number selected by the IMAP page
(`fetch_end = total - skip`; `u32` subtraction, guarded by
`skip < total` at the call site). -/
def imapFetchEnd (total skip : Nat) : Nat := total - skip

/-- The oldest sequence number selected by the IMAP page
(`fetch_end.saturating_sub(max_emails.saturating_sub(1)).max(1)`;
truncated `Nat` subtraction is exactly `saturating_sub`). -/
def imapFetchStart (total skip maxEmails : Nat) : Nat :=
  max (imapFetchEnd total skip - (maxEmails - 1)) 1

/-- Embedding of `imap_fetch_emails` after folder selection: `total` is
the selected mailbox's `exists` count, `fetch` abstracts the network
fetch of an inclusive sequence range (start, end) into parsed messages,
and the returned page is reversed.  An empty folder or `skip ≥ total`
returns `Ok(vec![])` before any fetch. -/
def imapFetchEmails {α : Type} (total skip maxEmails : Nat)
    (fetch : Nat → Nat → Except String (List α)) : Except String (List α) :=
  if total = 0 ∨ skip ≥ total then .ok []
  else
    match fetch (imapFetchStart total skip maxEmails) (imapFetchEnd total skip) with
    | .ok msgs => .ok msgs.reverse
    | .error e => .error e

/-- The comparator `|a, b| b.0.cmp(&a.0)` used on the UIDL list:
descending by sequence number. -/
def pop3SeqDesc : Nat × String → Nat × String → Prop := fun a b => b.1 ≤ a.1

instance : DecidableRel pop3SeqDesc := fun a b => Nat.decLe b.1 a.1

/-- The sort `server_uids.sort_by(|a, b| b.0.cmp(&a.0))`: Rust's
`sort_by` is stable, as is insertion sort with a total preorder, so the
two agree on ties. -/
def pop3SortUids (l : List (Nat × String)) : List (Nat × String) :=
  List.insertionSort pop3SeqDesc l

/-- The page selection of both POP3 sync paths:
`.into_iter().skip(skip).take(max_emails)` over the sorted list. -/
def pop3Page (uids : List (Nat × String)) (skip maxEmails : Nat) :
    List (Nat × String) :=
  ((pop3SortUids uids).drop skip).take maxEmails

/-- The RETR loop over the selected page: each `(seq, uid_string)` pair
is retrieved in page order (`retr` abstracts `RETR seq` plus parsing). -/
def pop3SyncEmails {β : Type} (uids : List (Nat × String)) (skip maxEmails : Nat)
    (retr : Nat → String → β) : List β :=
  (pop3Page uids skip maxEmails).map (fun p => retr p.1 p.2)

/-- The uid the delete/mark paths recover from an email id: the last
`_`-separated part parsed as `u32`, defaulting to 0. -/
def extractUid (emailId : String) : Nat :=
  match (splitOnChar '_' emailId.data).getLast? with
  | some lastPart => (parseU32Chars lastPart).getD 0
  | none => 0

/-- The index rewrite of `delete_email`:
`emails.retain(|e| e.id != email_id)`. -/
def deleteFromIndex (emails : List EmailMessage) (emailId : String) :
    List EmailMessage :=
  emails.filter (fun e => e.id ≠ emailId)

/-- The `.eml` removal of `delete_email`: both `{email_id}.eml` and
`{uid}.eml` are removed from the account directory when present. -/
def deleteEmlFiles (files : List String) (emailId : String) : List String :=
  files.filter
    (fun f => ¬(f = emailId ++ ".eml" ∨ f = toString (extractUid emailId) ++ ".eml"))

/--
State of a `PrefixStream<T>` together with its inner stream, which is
modelled as the byte sequence it will deliver (`innerBytes` past
`innerPos`) plus a sink of written bytes.  `prefixBuf`/`prefixPos` model
the `Cursor<Vec<u8>>`, and `prefixDone` the boolean flag.
-/
structure PS where
  prefixBuf : List Nat
  prefixPos : Nat
  prefixDone : Bool
  innerBytes : List Nat
  innerPos : Nat
  innerWritten : List Nat
deriving DecidableEq, Repr

/-- A freshly constructed `PrefixStream::new(inner, prefix)`. -/
def psInit (p i : List Nat) : PS :=
  { prefixBuf := p, prefixPos := 0, prefixDone := false,
    innerBytes := i, innerPos := 0, innerWritten := [] }

/-- A read of up to `n` bytes from the inner stream. -/
def innerReadPS (s : PS) (n : Nat) : List Nat × PS :=
  let out := (s.innerBytes.drop s.innerPos).take n
  (out, { s with innerPos := s.innerPos + out.length })

/-- Embedding of `PrefixStream::read` with a buffer of size `n`: while
the prefix is not done, read from the cursor; a zero-byte cursor read
flips `prefix_done` and falls through to the inner stream IN THE SAME
CALL; afterwards all reads delegate to the inner stream. -/
def psRead (s : PS) (n : Nat) : List Nat × PS :=
  if s.prefixDone then innerReadPS s n
  else
    let chunk := (s.prefixBuf.drop s.prefixPos).take n
    if chunk.length = 0 then innerReadPS { s with prefixDone := true } n
    else (chunk, { s with prefixPos := s.prefixPos + chunk.length })

/-- Embedding of `PrefixStream::write`: always delegates to the inner
stream, regardless of the prefix state. -/
def psWrite (s : PS) (bs : List Nat) : PS :=
  { s with innerWritten := s.innerWritten ++ bs }

/-- Run a sequence of reads (each entry a buffer size) and concatenate
everything delivered. -/
def psRunReads (s : PS) : List Nat → List Nat
  | [] => []
  | n :: ns =>
    let r := psRead s n
    r.1 ++ psRunReads r.2 ns

/-- The bytes still readable from the wrapper: the undelivered prefix
part (unless the prefix has been marked done) followed by the
undelivered inner bytes. -/
def absRemaining (s : PS) : List Nat :=
  (if s.prefixDone then [] else s.prefixBuf.drop s.prefixPos) ++
    s.innerBytes.drop s.innerPos

/--
C2: for every IMAP sync call where the selected folder's message count
is 0, or `skip ≥ total`, the sync returns an empty list and not an
error — the guard in `imap_fetch_emails` returns `Ok(Vec::new())`
before any fetch is attempted.
-/
theorem c2_skip_ge_total_empty {α : Type} (total skip maxEmails : Nat)
    (fetch : Nat → Nat → Except String (List α))
    (h : total = 0 ∨ skip ≥ total) :
    imapFetchEmails total skip maxEmails fetch = .ok [] := by
  unfold imapFetchEmails
  rw [if_pos h]

/-- Witness instantiating `c2_skip_ge_total_empty` on both sides of its
disjunctive hypothesis. -/
theorem c2_witness :
    imapFetchEmails 0 0 10 (fun _ _ => (.ok [] : Except String (List Nat))) = .ok [] ∧
    imapFetchEmails 7 9 10 (fun _ _ => (.error "x" : Except String (List Nat))) = .ok [] :=
  ⟨c2_skip_ge_total_empty 0 0 10 _ (Or.inl rfl),
   c2_skip_ge_total_empty 7 9 10 _ (Or.inr (by omega))⟩

/--
C1 (amended): for `skip < total` and `max ≥ 1` the IMAP sync fetches
exactly the inclusive range `[fetch_start, fetch_end]` with
`fetch_end = total - skip` and `fetch_start = max(1, fetch_end - max + 1)`
(stated over ℤ, where the claim's formula is meaningful), and returns
the fetched messages reversed (newest first).  The claim's extension to
`max = 0` fails — see the counterexample: there the code computes
`fetch_start = fetch_end`, not `fetch_end + 1`.
-/
theorem c1_imap_fetch_range (total skip maxEmails : Nat)
    (h1 : skip < total) (h2 : 1 ≤ maxEmails) :
    imapFetchEnd total skip = total - skip ∧
    ((imapFetchStart total skip maxEmails : Nat) : ℤ) =
      max 1 ((total : ℤ) - (skip : ℤ) - (maxEmails : ℤ) + 1) ∧
    ∀ (α : Type) (fetch : Nat → Nat → Except String (List α)) (msgs : List α),
      fetch (imapFetchStart total skip maxEmails) (imapFetchEnd total skip) = .ok msgs →
      imapFetchEmails total skip maxEmails fetch = .ok msgs.reverse := by
  refine ⟨rfl, ?_, ?_⟩
  · unfold imapFetchStart imapFetchEnd
    rw [Nat.cast_max]
    rcases max_cases (((total - skip - (maxEmails - 1) : Nat)) : ℤ) ((1 : Nat) : ℤ) with
      ⟨hm1, hm2⟩ | ⟨hm1, hm2⟩ <;>
    rcases max_cases (1 : ℤ) ((total : ℤ) - (skip : ℤ) - (maxEmails : ℤ) + 1) with
      ⟨hn1, hn2⟩ | ⟨hn1, hn2⟩ <;>
    rw [hm1, hn1] <;> push_cast at * <;> omega
  · intro α fetch msgs hfetch
    unfold imapFetchEmails
    rw [if_neg (by omega), hfetch]

/-- Witness instantiating `c1_imap_fetch_range` at
`total = 10, skip = 3, max = 4` (range 4:7) with a concrete fetch. -/
theorem c1_witness :
    (3 < 10 ∧ 1 ≤ 4) ∧
    imapFetchEmails 10 3 4 (fun _ _ => (.ok [9, 8] : Except String (List Nat))) =
      .ok [8, 9] :=
  ⟨⟨by omega, by omega⟩,
    (c1_imap_fetch_range 10 3 4 (by omega) (by omega)).2.2 Nat
      (fun _ _ => .ok [9, 8]) [9, 8] rfl⟩

/--
C1 counterexample: the claim asserts its formula for every `max`
"including max = 0".  At `total = 5, skip = 0, max = 0` the claim's
formula gives `fetch_start = max(1, 5 - 0 + 1) = 6` (an empty inclusive
range), but the code computes
`fetch_start = fetch_end.saturating_sub(0.saturating_sub(1)).max(1) = 5`,
so it fetches the single message 5:5.
-/
theorem c1_counterexample :
    imapFetchStart 5 0 0 = 5 ∧ imapFetchStart 5 0 0 ≠ max 1 (5 - 0 + 1) := by
  constructor <;> decide

/--
C8: for every stored index and message id the delete operation keeps
exactly the entries whose id differs (in order, others unchanged) and
removes exactly the files `{id}.eml` and `{uid}.eml`, where `uid` is the
numeric suffix of the id; in particular for id "INBOX_42" the uid is 42
and both `INBOX_42.eml` and `42.eml` are removed.
-/
theorem c8_delete_email :
    (∀ (emails : List EmailMessage) (files : List String) (emailId : String),
      (∀ e, e ∈ deleteFromIndex emails emailId ↔ e ∈ emails ∧ e.id ≠ emailId) ∧
      (∀ f, f ∈ deleteEmlFiles files emailId ↔
        f ∈ files ∧ f ≠ emailId ++ ".eml" ∧
          f ≠ toString (extractUid emailId) ++ ".eml")) ∧
    extractUid "INBOX_42" = 42 ∧
    deleteEmlFiles ["INBOX_42.eml", "42.eml", "INBOX_7.eml"] "INBOX_42" =
      ["INBOX_7.eml"] := by
  refine ⟨?_, by decide, by decide⟩
  intro emails files emailId
  constructor
  · intro e
    simp [deleteFromIndex, List.mem_filter]
  · intro f
    simp [deleteEmlFiles, List.mem_filter, not_or]

/--
C5: the POP3 page is obtained by sorting the `(sequence, unique-id)`
pairs by sequence descending (a stable sort, like Rust's `sort_by`),
dropping `skip` of them, taking `max`, and retrieving exactly those in
that order.  The sorted list is a permutation of the input and is
sorted descending by sequence number.
-/
theorem c5_pop3_paging (uids : List (Nat × String)) (skip maxEmails : Nat)
    (retr : Nat → String → EmailMessage) :
    List.Sorted pop3SeqDesc (pop3SortUids uids) ∧
    List.Perm (pop3SortUids uids) uids ∧
    pop3Page uids skip maxEmails = ((pop3SortUids uids).drop skip).take maxEmails ∧
    pop3SyncEmails uids skip maxEmails retr =
      (pop3Page uids skip maxEmails).map (fun p => retr p.1 p.2) := by
  refine ⟨?_, List.perm_insertionSort _ _, rfl, rfl⟩
  haveI : IsTotal (Nat × String) pop3SeqDesc := ⟨fun a b => le_total b.1 a.1⟩
  haveI : IsTrans (Nat × String) pop3SeqDesc :=
    ⟨fun _ _ _ hab hbc => le_trans hbc hab⟩
  exact List.sorted_insertionSort _ _

/--
C3 (amended): when structured MIME parsing fails during a sync batch,
the per-message decoding never raises an error for that message, but it
does NOT fall back to lossy plain text: on the IMAP path every header
field becomes empty and both bodies are `None`; on the POP3 path the
lossy-decoded raw text is handed to the basic header-line scanner, which
also leaves `body_text = None` and `body_html = None`.  (The raw-bytes
fallback of `parse_email_body` is not invoked on either sync path.)
-/
theorem c3_parse_failure_no_bodies :
    (∀ (raw : List Nat) (folder : String) (uid : Nat) (flags : List String),
      (imapEmailOf folder uid flags (some (raw, none))).bodyText = none ∧
      (imapEmailOf folder uid flags (some (raw, none))).bodyHtml = none) ∧
    (∀ (raw : List Nat) (folder : String) (seq : Nat) (uidString : Option String),
      (pop3EmailWithParser none raw folder seq uidString).1.bodyText = none ∧
      (pop3EmailWithParser none raw folder seq uidString).1.bodyHtml = none) :=
  ⟨fun _ _ _ _ => ⟨rfl, rfl⟩, fun _ _ _ _ => ⟨rfl, rfl⟩⟩

/--
C3 counterexample: feeding the POP3 per-message decoder raw bytes on
which MIME parsing fails (here the invalid UTF-8 bytes FF FE) yields
`body_text = None`, not `Some(lossy-utf8(raw))` as the claim states.
-/
theorem c3_counterexample :
    (pop3EmailWithParser none [0xFF, 0xFE] "INBOX" 1 none).1.bodyText ≠
      some (lossyString [0xFF, 0xFE]) := by
  decide

/--
C4 (amended): the sanitized-Message-ID rule holds only on the POP3 path
with a successful MIME parse: there the id is the Message-ID sanitized
to alphanumerics plus `@ . - _` and truncated to 100 characters, and
`"{folder}_{seq}"` otherwise.  The IMAP path always assigns
`"{folder}_{uid}"`, ignoring any parsed Message-ID.
-/
theorem c4_message_id_rules :
    (∀ (folder : String) (uid : Nat) (flags : List String)
        (body : Option (List Nat × Option MpMessage)),
      (imapEmailOf folder uid flags body).id = folder ++ "_" ++ toString uid) ∧
    (∀ (m : MpMessage) (raw : List Nat) (folder : String) (seq : Nat)
        (uidString : Option String) (mid : String), m.messageId = some mid →
      (pop3EmailWithParser (some m) raw folder seq uidString).1.id =
        sanitizeMessageId mid) ∧
    (∀ (m : MpMessage) (raw : List Nat) (folder : String) (seq : Nat)
        (uidString : Option String), m.messageId = none →
      (pop3EmailWithParser (some m) raw folder seq uidString).1.id =
        folder ++ "_" ++ toString seq) := by
  refine ⟨fun _ _ _ _ => rfl, ?_, ?_⟩
  · intro m raw folder seq uidString mid h
    simp [pop3EmailWithParser, h]
  · intro m raw folder seq uidString h
    simp [pop3EmailWithParser, h]

/-- Witness instantiating the POP3 conjuncts of `c4_message_id_rules` on
a concrete parsed message carrying Message-ID "m1@x". -/
theorem c4_witness :
    (pop3EmailWithParser
      (some { subject := none, fromAddr := none, toAddr := none,
              dateRfc3339 := none, bodyTextZero := none, bodyHtmlZero := none,
              messageId := some "m1@x" })
      [] "INBOX" 3 none).1.id = sanitizeMessageId "m1@x" :=
  c4_message_id_rules.2.1
    { subject := none, fromAddr := none, toAddr := none,
      dateRfc3339 := none, bodyTextZero := none, bodyHtmlZero := none,
      messageId := some "m1@x" }
    [] "INBOX" 3 none "m1@x" rfl

/--
C4 counterexample: an IMAP-path message whose parsed headers carry the
Message-ID "abc@example.com" still gets id "INBOX_7" (its folder and
uid), not the sanitized Message-ID, refuting the claim for the IMAP
path.
-/
theorem c4_counterexample :
    (imapEmailOf "INBOX" 7 []
      (some ([],
        some { subject := none, fromAddr := none, toAddr := none,
               dateRfc3339 := none, bodyTextZero := none, bodyHtmlZero := none,
               messageId := some "abc@example.com" }))).id = "INBOX_7" ∧
    ("INBOX_7" : String) ≠ sanitizeMessageId "abc@example.com" := by
  constructor
  · rfl
  · decide

/-- The UIDL line loop equals the specification's takeWhile/filterMap
description of it, by induction on the line list. -/
theorem uidlLoop_eq_takeWhile (ls : List String) :
    uidlLoop ls = ((ls.map rustTrim).takeWhile (fun t => t ≠ ".")).filterMap
      (fun t => if t.isEmpty || strStartsWith t "+OK" then none else uidlLine t) := by
  induction ls with
  | nil => rfl
  | cons l rest ih =>
    simp only [uidlLoop, List.map_cons, List.takeWhile_cons]
    by_cases hdot : rustTrim l = "."
    · rw [hdot]
      simp
      exact fun h => absurd h (by decide)
    · by_cases hskip : ((rustTrim l).isEmpty || strStartsWith (rustTrim l) "+OK") = true
      · have hskip' : (rustTrim l).isEmpty = true ∨
            strStartsWith (rustTrim l) "+OK" = true := by
          simpa [Bool.or_eq_true] using hskip
        simp [hskip, hdot, ih, List.filterMap_cons, if_pos hskip']
      · have hskip' : ¬((rustTrim l).isEmpty = true ∨
            strStartsWith (rustTrim l) "+OK" = true) := by
          simpa [Bool.or_eq_true] using hskip
        rw [if_neg hskip, if_neg hdot]
        cases h : uidlLine (rustTrim l) <;>
          simp [hskip', hdot, h, ih, List.filterMap_cons]

/--
C6: UIDL parsing yields one `(sequence, unique-id)` pair per line with
at least two whitespace-separated tokens and a numeric first token;
blank lines and lines starting with "+OK" are skipped; a line that is
exactly "." terminates parsing so no later lines contribute (stated as
the equality with the takeWhile/filterMap reading of the claim); in
particular "1 abc\r\n2 def\r\n.\r\n" parses to [(1,"abc"), (2,"def")].
-/
theorem c6_uidl_parsing :
    (∀ s : String, parseUidlResponse s = parseUidlSpec s) ∧
    parseUidlResponse "1 abc\r\n2 def\r\n.\r\n" = [(1, "abc"), (2, "def")] := by
  constructor
  · intro s
    exact uidlLoop_eq_takeWhile (rustLines s)
  · decide


/-- One positive-size read from a `PrefixStream` delivers an initial
segment of the remaining bytes, leaves exactly the rest, and makes
progress whenever bytes remain. -/
theorem psRead_take (s : PS) (n : Nat) (hn : 1 ≤ n) :
    (psRead s n).1 = (absRemaining s).take (psRead s n).1.length ∧
    absRemaining (psRead s n).2 = (absRemaining s).drop (psRead s n).1.length ∧
    (1 ≤ (absRemaining s).length → 1 ≤ (psRead s n).1.length) := by
  by_cases hd : s.prefixDone
  · simp only [psRead, if_pos hd, innerReadPS, absRemaining, hd, if_true,
      List.nil_append]
    refine ⟨?_, ?_, ?_⟩
    · rw [List.length_take, List.take_eq_take]
      omega
    · rw [List.drop_drop]
    · rw [List.length_take]
      omega
  · simp only [psRead, if_neg hd]
    by_cases hc : ((s.prefixBuf.drop s.prefixPos).take n).length = 0
    · have hA : s.prefixBuf.drop s.prefixPos = [] := by
        rw [List.length_take] at hc
        exact List.eq_nil_of_length_eq_zero (by omega)
      rw [if_pos hc]
      simp only [innerReadPS, absRemaining, hd, hA, if_true, if_false,
        Bool.false_eq_true, ite_false, ite_true, List.nil_append]
      refine ⟨?_, ?_, ?_⟩
      · rw [List.length_take, List.take_eq_take]
        omega
      · rw [List.drop_drop]
      · rw [List.length_take]
        omega
    · rw [if_neg hc]
      simp only [absRemaining, hd, Bool.false_eq_true, ite_false,
        if_neg hd]
      have hlen : ((s.prefixBuf.drop s.prefixPos).take n).length ≤
          (s.prefixBuf.drop s.prefixPos).length := by
        rw [List.length_take]; omega
      refine ⟨?_, ?_, ?_⟩
      · rw [List.take_append_of_le_length hlen, List.length_take,
          List.take_eq_take]
        omega
      · rw [List.drop_append_of_le_length hlen, List.drop_drop]
      · intro _
        omega

/-- A run of positive-size reads delivers an initial segment of the
remaining bytes; with at least as many reads as bytes it delivers them
all. -/
theorem psRunReads_take (reads : List Nat) : ∀ (s : PS), (∀ n ∈ reads, 1 ≤ n) →
    psRunReads s reads = (absRemaining s).take (psRunReads s reads).length ∧
    ((absRemaining s).length ≤ reads.length → psRunReads s reads = absRemaining s) := by
  induction reads with
  | nil =>
    intro s _
    constructor
    · rfl
    · intro hle
      simp only [psRunReads]
      symm
      exact List.eq_nil_of_length_eq_zero (by simpa using hle)
  | cons n ns ih =>
    intro s h
    have hn : 1 ≤ n := h n (List.mem_cons_self n ns)
    have hns : ∀ m ∈ ns, 1 ≤ m := fun m hm => h m (List.mem_cons_of_mem n hm)
    obtain ⟨h1, h2, h3⟩ := psRead_take s n hn
    obtain ⟨ih1, ih2⟩ := ih (psRead s n).2 hns
    have hrun : psRunReads s (n :: ns) =
        (psRead s n).1 ++ psRunReads (psRead s n).2 ns := rfl
    constructor
    · rw [hrun, List.length_append, List.take_add, ← h2, ← ih1, ← h1]
    · intro hle
      by_cases habs : (absRemaining s).length = 0
      · have habs' : absRemaining s = [] := List.eq_nil_of_length_eq_zero habs
        have hout : (psRead s n).1 = [] := by rw [h1, habs']; simp
        have hrest : absRemaining (psRead s n).2 = [] := by rw [h2, habs']; simp
        rw [hrun, hout, List.nil_append, ih2 (by rw [hrest]; simp), hrest, habs']
      · have hpos : 1 ≤ (psRead s n).1.length := h3 (by omega)
        have hrest : (absRemaining (psRead s n).2).length ≤ ns.length := by
          rw [h2, List.length_drop]
          simp only [List.length_cons] at hle
          omega
        rw [hrun, ih2 hrest, h2]
        nth_rewrite 1 [h1]
        exact List.take_append_drop _ _

/--
C9 (amended): for every prefix buffer, inner stream and sequence of
reads with POSITIVE buffer sizes, the bytes delivered by the
`PrefixStream` wrapper are exactly an initial segment of
`prefix ++ inner` (the prefix first, then the inner bytes), the whole of
it once at least as many reads as bytes are issued, and every write
delegates directly to the inner stream.  The claim's "for every sequence
of read calls" fails for zero-sized reads — see the counterexample: a
zero-byte read while the prefix is undrained flips `prefix_done` and
permanently discards the remaining prefix bytes.
-/
theorem c9_prefix_replay (p i reads : List Nat) (h : ∀ n ∈ reads, 1 ≤ n) :
    psRunReads (psInit p i) reads =
      (p ++ i).take (psRunReads (psInit p i) reads).length ∧
    ((p ++ i).length ≤ reads.length → psRunReads (psInit p i) reads = p ++ i) ∧
    (∀ (s : PS) (bs : List Nat), (psWrite s bs).innerWritten = s.innerWritten ++ bs) := by
  have habs : absRemaining (psInit p i) = p ++ i := by
    simp [absRemaining, psInit]
  obtain ⟨h1, h2⟩ := psRunReads_take reads (psInit p i) h
  rw [habs] at h1 h2
  exact ⟨h1, h2, fun _ _ => rfl⟩

/-- Witness instantiating `c9_prefix_replay` on prefix [1,2], inner [3]
and three positive reads, which drain the wrapper completely. -/
theorem c9_witness :
    (∀ n ∈ [(1 : Nat), 5, 5], 1 ≤ n) ∧
    psRunReads (psInit [1, 2] [3]) [1, 5, 5] =
      ([1, 2] ++ [3]).take (psRunReads (psInit [1, 2] [3]) [1, 5, 5]).length ∧
    (([1, 2] ++ [3] : List Nat).length ≤ ([1, 5, 5] : List Nat).length →
      psRunReads (psInit [1, 2] [3]) [1, 5, 5] = [1, 2] ++ [3]) :=
  ⟨by decide, (c9_prefix_replay [1, 2] [3] [1, 5, 5] (by decide)).1,
    (c9_prefix_replay [1, 2] [3] [1, 5, 5] (by decide)).2.1⟩

/--
C9 counterexample: with prefix [1] and inner [2], the read sequence
[0, 5] delivers only [2] — the zero-sized first read marks the prefix
done and the prefix byte 1 is lost — so the delivered bytes are NOT an
initial segment of prefix ++ inner, refuting the claim for arbitrary
read sequences.
-/
theorem c9_counterexample :
    psRunReads (psInit [1] [2]) [0, 5] = [2] ∧
    psRunReads (psInit [1] [2]) [0, 5] ≠
      ([1] ++ [2]).take (psRunReads (psInit [1] [2]) [0, 5]).length := by
  constructor <;> decide

/-- A list is a `isPrefixOf`-prefix of itself followed by anything. -/
theorem isPrefixOf_append_self (pat t : List Nat) : pat.isPrefixOf (pat ++ t) = true := by
  induction pat with
  | nil => simp [List.isPrefixOf]
  | cons a as ih => simp [List.isPrefixOf, ih]

/-- A pattern is found at index 0 of any list it begins. -/
theorem findSub_here (pat t : List Nat) : findSub (pat ++ t) pat = some 0 := by
  cases pat with
  | nil =>
    cases t with
    | nil => rfl
    | cons b bs => simp [findSub, List.isPrefixOf]
  | cons a as =>
    simp [List.cons_append, findSub, isPrefixOf_append_self]

/-- Stepping the search past a head byte that does not begin a match. -/
theorem findSub_cons_no (b : Nat) (t pat : List Nat)
    (h : pat.isPrefixOf (b :: t) = false) :
    findSub (b :: t) pat = (findSub t pat).map (· + 1) := by
  simp [findSub, h]

/-- The search skips over a block containing no byte equal to the
pattern's first byte. -/
theorem findSub_append_skip (pat l rest : List Nat) (hpat : pat ≠ [])
    (hl : ∀ b ∈ l, b ≠ pat.headD 0) :
    findSub (l ++ rest) pat = (findSub rest pat).map (· + l.length) := by
  induction l with
  | nil =>
    cases hf : findSub rest pat <;> simp [hf]
  | cons b bs ih =>
    have hb : b ≠ pat.headD 0 := hl b (List.mem_cons_self _ _)
    have hbs : ∀ x ∈ bs, x ≠ pat.headD 0 := fun x hx => hl x (List.mem_cons_of_mem _ hx)
    have hnp : pat.isPrefixOf (b :: (bs ++ rest)) = false := by
      cases pat with
      | nil => exact absurd rfl hpat
      | cons p0 pr =>
        have hb' : p0 ≠ b := fun hc => hb (by simp [List.headD, hc.symm])
        simp [List.isPrefixOf, hb']
    rw [List.cons_append, findSub_cons_no b (bs ++ rest) pat hnp, ih hbs]
    cases hf : findSub rest pat
    · simp [hf]
    · simp [hf]
      omega

/-- A "?" not followed by "=" does not begin a "?=" match. -/
theorem isPrefixOf_QE_false (X : List Nat) (hX : X.headD 66 ≠ 61) :
    ([63, 61] : List Nat).isPrefixOf (63 :: X) = false := by
  cases X with
  | nil => rfl
  | cons x xs =>
    have hx : x ≠ 61 := fun hc => hX (by simp [List.headD, hc])
    have hx' : (61 : Nat) ≠ x := fun hc => hx hc.symm
    simp [List.isPrefixOf, hx']

/-- A single-byte pattern absent from a list is not found. -/
theorem findSub_single_none (p : List Nat) (x : Nat) (hp : ∀ b ∈ p, b ≠ x) :
    findSub p [x] = none := by
  induction p with
  | nil => rfl
  | cons b bs ih =>
    have hb : b ≠ x := hp b (List.mem_cons_self _ _)
    have hnp : ([x] : List Nat).isPrefixOf (b :: bs) = false := by
      have hx : x ≠ b := fun hc => hb hc.symm
      simp [List.isPrefixOf, hx]
    rw [findSub_cons_no b bs [x] hnp,
      ih (fun y hy => hp y (List.mem_cons_of_mem _ hy))]
    rfl

/-- Position of the terminating "?=" of a well-formed encoded-word token
whose charset/encoding/text fields are free of "?" and whose
encoding/text fields do not start with "=". -/
theorem findSub_token (cs e p : List Nat)
    (hcs : ∀ b ∈ cs, b ≠ 63) (he : ∀ b ∈ e, b ≠ 63) (hp : ∀ b ∈ p, b ≠ 63)
    (he0 : e.headD 66 ≠ 61) (hp0 : p.headD 66 ≠ 61) :
    findSub (cs ++ 63 :: (e ++ 63 :: (p ++ [63, 61]))) [63, 61] =
      some (cs.length + (1 + (e.length + (1 + p.length)))) := by
  have hfind : findSub [63, 61] [63, 61] = some 0 := by decide
  have hX1 : (p ++ [63, 61]).headD 66 ≠ 61 := by
    cases p with
    | nil => simp [List.headD]
    | cons x xs => simpa [List.headD] using hp0
  have hX2 : (e ++ 63 :: (p ++ [63, 61])).headD 66 ≠ 61 := by
    cases e with
    | nil => simp [List.headD]
    | cons x xs => simpa [List.headD] using he0
  have step1 : findSub (p ++ [63, 61]) [63, 61] = some p.length := by
    rw [findSub_append_skip [63, 61] p [63, 61] (by simp) (fun b hb => hp b hb),
      hfind]
    simp
  have step2 : findSub (63 :: (p ++ [63, 61])) [63, 61] = some (p.length + 1) := by
    rw [findSub_cons_no 63 (p ++ [63, 61]) [63, 61]
      (isPrefixOf_QE_false (p ++ [63, 61]) hX1), step1]
    rfl
  have step3 : findSub (e ++ 63 :: (p ++ [63, 61])) [63, 61] =
      some (p.length + 1 + e.length) := by
    rw [findSub_append_skip [63, 61] e (63 :: (p ++ [63, 61])) (by simp)
      (fun b hb => he b hb), step2]
    rfl
  have step4 : findSub (63 :: (e ++ 63 :: (p ++ [63, 61]))) [63, 61] =
      some (p.length + 1 + e.length + 1) := by
    rw [findSub_cons_no 63 (e ++ 63 :: (p ++ [63, 61])) [63, 61]
      (isPrefixOf_QE_false (e ++ 63 :: (p ++ [63, 61])) hX2), step3]
    rfl
  rw [findSub_append_skip [63, 61] cs (63 :: (e ++ 63 :: (p ++ [63, 61])))
    (by simp) (fun b hb => hcs b hb), step4]
  simp
  omega

/-- Position of the first "?" after a "?"-free block. -/
theorem findSub_sep (cs rest : List Nat) (hcs : ∀ b ∈ cs, b ≠ 63) :
    findSub (cs ++ 63 :: rest) [63] = some cs.length := by
  rw [findSub_append_skip [63] cs (63 :: rest) (by simp) (fun b hb => hcs b hb)]
  have h0 : findSub (63 :: rest) [63] = some 0 := findSub_here [63] rest
  rw [h0]
  simp

/-- `splitn(3, '?')` on a well-formed encoded-word interior yields
exactly the three fields. -/
theorem splitn_token (cs e p : List Nat)
    (hcs : ∀ b ∈ cs, b ≠ 63) (he : ∀ b ∈ e, b ≠ 63) (hp : ∀ b ∈ p, b ≠ 63) :
    splitnB 3 63 (cs ++ 63 :: (e ++ 63 :: p)) = [cs, e, p] := by
  have h1 : findSub (cs ++ 63 :: (e ++ 63 :: p)) [63] = some cs.length :=
    findSub_sep cs _ hcs
  have h2 : findSub (e ++ 63 :: p) [63] = some e.length := findSub_sep e _ he
  have htake1 : (cs ++ 63 :: (e ++ 63 :: p)).take cs.length = cs :=
    List.take_left cs _
  have hdrop1 : (cs ++ 63 :: (e ++ 63 :: p)).drop (cs.length + 1) = e ++ 63 :: p := by
    rw [List.append_cons cs 63 (e ++ 63 :: p)]
    exact List.drop_left' (by simp)
  have htake2 : (e ++ 63 :: p).take e.length = e := List.take_left e _
  have hdrop2 : (e ++ 63 :: p).drop (e.length + 1) = p := by
    rw [List.append_cons e 63 p]
    exact List.drop_left' (by simp)
  simp only [splitnB, h1, h2, htake1, hdrop1, htake2, hdrop2]

/-- One loop iteration on a well-formed single token whose encoding
field uppercases to neither "B" nor "Q": `decoded_bytes` is `None`, the
loop breaks, and the token reaches the output unmodified (modulo the
final trim of the whole string). -/
theorem decodeLoop_token_unknown (cs e p : List Nat) (f : Nat)
    (hcs : ∀ b ∈ cs, b ≠ 63) (he : ∀ b ∈ e, b ≠ 63) (hp : ∀ b ∈ p, b ≠ 63)
    (he0 : e.headD 66 ≠ 61) (hp0 : p.headD 66 ≠ 61)
    (hnotB : asciiUpperB e ≠ [66]) (hnotQ : asciiUpperB e ≠ [81]) :
    decodeLoop (f + 1) (61 :: 63 :: (cs ++ 63 :: (e ++ 63 :: (p ++ [63, 61])))) =
      .res (rustTrimB (61 :: 63 :: (cs ++ 63 :: (e ++ 63 :: (p ++ [63, 61]))))) := by
  have hfind1 : findSub (61 :: 63 :: (cs ++ 63 :: (e ++ 63 :: (p ++ [63, 61]))))
      [61, 63] = some 0 := by
    simp [findSub, List.isPrefixOf]
  have hfind2 : findSub (cs ++ 63 :: (e ++ 63 :: (p ++ [63, 61]))) [63, 61] =
      some (cs.length + (1 + (e.length + (1 + p.length)))) :=
    findSub_token cs e p hcs he hp he0 hp0
  have hencoded : (cs ++ 63 :: (e ++ 63 :: (p ++ [63, 61]))).take
      (cs.length + (1 + (e.length + (1 + p.length)))) = cs ++ 63 :: (e ++ 63 :: p) := by
    have hX : cs ++ 63 :: (e ++ 63 :: (p ++ [63, 61])) =
        (cs ++ 63 :: (e ++ 63 :: p)) ++ [63, 61] := by
      simp [List.append_assoc, List.cons_append]
    rw [hX]
    exact List.take_left' (by simp [List.length_append]; omega)
  have hsplit : splitnB 3 63 (cs ++ 63 :: (e ++ 63 :: p)) = [cs, e, p] :=
    splitn_token cs e p hcs he hp
  simp only [decodeLoop, hfind1]
  simp only [Nat.zero_add, List.drop_succ_cons, List.drop_zero, hfind2, hencoded,
    hsplit]
  simp [hnotB, hnotQ]

/-- One loop iteration on a well-formed single "B" token whose payload
decodes: the token is replaced by the charset-decoded bytes and the loop
continues on them. -/
theorem decodeLoop_token_b64 (cs p raw : List Nat) (f : Nat)
    (hcs : ∀ b ∈ cs, b ≠ 63) (hp : ∀ b ∈ p, b ≠ 63) (hp0 : p.headD 66 ≠ 61)
    (hb : b64Decode p = some raw) :
    decodeLoop (f + 1) (61 :: 63 :: (cs ++ 63 :: ([66] ++ 63 :: (p ++ [63, 61])))) =
      decodeLoop f (charsetDecode cs raw) := by
  have hfind1 : findSub (61 :: 63 :: (cs ++ 63 :: ([66] ++ 63 :: (p ++ [63, 61]))))
      [61, 63] = some 0 := by
    simp [findSub, List.isPrefixOf]
  have hfind2 : findSub (cs ++ 63 :: ([66] ++ 63 :: (p ++ [63, 61]))) [63, 61] =
      some (cs.length + (1 + (([66] : List Nat).length + (1 + p.length)))) :=
    findSub_token cs [66] p hcs (by decide) hp (by decide) hp0
  have hencoded : (cs ++ 63 :: ([66] ++ 63 :: (p ++ [63, 61]))).take
      (cs.length + (1 + (([66] : List Nat).length + (1 + p.length)))) =
      cs ++ 63 :: ([66] ++ 63 :: p) := by
    have hX : cs ++ 63 :: ([66] ++ 63 :: (p ++ [63, 61])) =
        (cs ++ 63 :: ([66] ++ 63 :: p)) ++ [63, 61] := by
      simp [List.append_assoc, List.cons_append]
    rw [hX]
    exact List.take_left' (by simp [List.length_append]; omega)
  have hsplit : splitnB 3 63 (cs ++ 63 :: ([66] ++ 63 :: p)) = [cs, [66], p] :=
    splitn_token cs [66] p hcs (by decide) hp
  simp only [decodeLoop, hfind1]
  simp only [Nat.zero_add, List.drop_succ_cons, List.drop_zero, hfind2, hencoded,
    hsplit]
  simp only [List.length_cons, List.length_nil]
  simp [asciiUpperB, hb]
  congr 1
  rw [List.drop_eq_nil_of_le (by simp [List.length_append]; omega), List.append_nil]

/-- The charset branch is the identity whenever lossy UTF-8 decoding
leaves the bytes unchanged (every branch then returns the bytes). -/
theorem charsetDecode_lossy_id (cs raw : List Nat) (h : utf8LossyBytes raw = raw) :
    charsetDecode cs raw = raw := by
  unfold charsetDecode
  split_ifs <;> simp [h]

/-- With no "=?" left in the working string the loop exits and trims. -/
theorem decodeLoop_no_token (f : Nat) (hf : 1 ≤ f) (l : List Nat)
    (h : findSub l [61, 63] = none) : decodeLoop f l = .res (rustTrimB l) := by
  cases f with
  | zero => omega
  | succ g => simp [decodeLoop, h]

/--
C7: RFC 2047 tokens `=?charset?encoding?text?=` are decoded by splitting
on the three `?`-delimited fields; a "B" token whose payload base64
decodes (to bytes that are UTF-8-stable under lossy decoding and
contain no further "=?") is replaced by those decoded bytes, for EVERY
charset field; a token whose encoding letter is neither B nor Q
(case-insensitively) is left unmodified in the output (the whole string
is trimmed on loop exit, as the source does); in particular
"=?UTF-8?B?5rWL6K+V?=" decodes to "测试" (the UTF-8 string of that
base64 payload) and the Q example "=?UTF-8?Q?a_b?=" maps "_" to space.
Byte values: 61 is "=", 63 is "?", 66 is "B".
-/
theorem c7_rfc2047_decode :
    (∀ (cs p raw : List Nat),
      (∀ b ∈ cs, b ≠ 63) → (∀ b ∈ p, b ≠ 63) → p.headD 66 ≠ 61 →
      b64Decode p = some raw → utf8LossyBytes raw = raw →
      findSub raw [61, 63] = none →
      decodeMimeHeader (61 :: 63 :: (cs ++ 63 :: ([66] ++ 63 :: (p ++ [63, 61])))) =
        .res (rustTrimB raw)) ∧
    (∀ (cs e p : List Nat),
      (∀ b ∈ cs, b ≠ 63) → (∀ b ∈ e, b ≠ 63) → (∀ b ∈ p, b ≠ 63) →
      e.headD 66 ≠ 61 → p.headD 66 ≠ 61 →
      asciiUpperB e ≠ [66] → asciiUpperB e ≠ [81] →
      decodeMimeHeader (61 :: 63 :: (cs ++ 63 :: (e ++ 63 :: (p ++ [63, 61])))) =
        .res (rustTrimB (61 :: 63 :: (cs ++ 63 :: (e ++ 63 :: (p ++ [63, 61])))))) ∧
    decodeMimeHeader (utf8Encode "=?UTF-8?B?5rWL6K+V?=") = .res (utf8Encode "测试") ∧
    decodeMimeHeader (utf8Encode "=?UTF-8?Q?a_b?=") = .res (utf8Encode "a b") := by
  refine ⟨?_, ?_, by decide, by decide⟩
  · intro cs p raw hcs hp hp0 hb hlossy hnone
    have hfind1 : findSub (61 :: 63 :: (cs ++ 63 :: ([66] ++ 63 :: (p ++ [63, 61]))))
        [61, 63] = some 0 := by
      simp [findSub, List.isPrefixOf]
    unfold decodeMimeHeader
    rw [hfind1]
    simp only [Option.isNone_some, Bool.false_eq_true, if_false, ite_false]
    rw [decodeLoop_token_b64 cs p raw _ hcs hp hp0 hb,
      charsetDecode_lossy_id cs raw hlossy]
    apply decodeLoop_no_token _ ?_ _ hnone
    simp [List.length_append]
  · intro cs e p hcs he hp he0 hp0 hnotB hnotQ
    have hfind1 : findSub (61 :: 63 :: (cs ++ 63 :: (e ++ 63 :: (p ++ [63, 61]))))
        [61, 63] = some 0 := by
      simp [findSub, List.isPrefixOf]
    unfold decodeMimeHeader
    rw [hfind1]
    simp only [Option.isNone_some, Bool.false_eq_true, if_false, ite_false]
    exact decodeLoop_token_unknown cs e p _ hcs he hp he0 hp0 hnotB hnotQ

/-- Witness instantiating the general "B" conjunct of
`c7_rfc2047_decode` on the claim's own example token. -/
theorem c7_witness :
    ((∀ b ∈ utf8Encode "UTF-8", b ≠ 63) ∧ (∀ b ∈ utf8Encode "5rWL6K+V", b ≠ 63) ∧
      (utf8Encode "5rWL6K+V").headD 66 ≠ 61 ∧
      b64Decode (utf8Encode "5rWL6K+V") = some [230, 181, 139, 232, 175, 149] ∧
      utf8LossyBytes [230, 181, 139, 232, 175, 149] = [230, 181, 139, 232, 175, 149] ∧
      findSub [230, 181, 139, 232, 175, 149] [61, 63] = none) ∧
    decodeMimeHeader (61 :: 63 :: (utf8Encode "UTF-8" ++ 63 :: ([66] ++ 63 ::
      (utf8Encode "5rWL6K+V" ++ [63, 61])))) =
      .res (rustTrimB [230, 181, 139, 232, 175, 149]) :=
  ⟨⟨by decide, by decide, by decide, by decide, by decide, by decide⟩,
    c7_rfc2047_decode.1 (utf8Encode "UTF-8") (utf8Encode "5rWL6K+V")
      [230, 181, 139, 232, 175, 149] (by decide) (by decide) (by decide)
      (by decide) (by decide) (by decide)⟩

/--
C10: the claim says `decode_mime_header` is a total function.  The code
is not: on the header "=?a?Q?x=あ?=" the quoted-printable decoder
reaches the byte slice `&input[i+1..i+3]` with byte `i+3` inside the
multi-byte character "あ" and PANICS (byte-index-not-a-char-boundary).
The embedded decoder reports exactly that panic; the claim states the
evident intent of the code (a tolerant decoder that never fails), so
this is recorded as a code bug.
-/
theorem c10_decoder_panics :
    decodeMimeHeader (utf8Encode "=?a?Q?x=あ?=") = .panicked ∧
    decodeQuotedPrintableHeader (utf8Encode "x=あ") = .error () :=
  ⟨by decide, rfl⟩
